import Mathlib

/-!
# Verification of the FreeDView_tester pipeline

Shallow embedding of the core logic of the FreeDView render-regression
harness:

* `JsonLocalizer.is_event` and the frame-name validation performed by
  `JsonLocalizer.get_json_files` (src/jsonLocalizer.py);
* the placeholder-folder synthesis of `JsonLocalizer.create_extra_folder`;
* `mean_squared_error`, `RenderCompare.write_to_xml_file` and
  `RenderCompare.render_compare_do_it` (src/renderCompare.py);
* the success/failure counter aggregation of `FreeDViewRunner.do_it`
  (src/freeDViewRunner.py).

Python strings are modelled as `List Char`, numpy grayscale images as
rectangular `List (List Nat)` matrices with rational arithmetic (all pixel
values are small integers, so the float computations of the source are
exact on the facts proved here), and exceptions as `Except`/`Option`
results.
-/

namespace FreeDView

/-- One position of the wildcard comparison in `JsonLocalizer.is_event`:
a basename character matches the pattern character when they are equal, or
the pattern character is `'#'` and the basename character is one of the
decimal digits `'0'`–`'9'` (the source uses an explicit digit set). -/
def charMatch (p b : Char) : Bool :=
  p = b || (p = '#' && b.isDigit)

/-- The matched-from-start counter of `JsonLocalizer.is_event`: compare the
pattern and the basename character by character and stop at the first
mismatch.  The source loop runs over the indices of the pattern; the caller
guarantees the basename is at least as long. -/
def matchCount : List Char → List Char → Nat
  | p :: ps, b :: bs => if charMatch p b then matchCount ps bs + 1 else 0
  | _, _ => 0

/-- `JsonLocalizer.is_event` (src/jsonLocalizer.py, lines 299-330), on the
basename of the tested path: reject a basename shorter than the pattern,
otherwise classify the directory as an event iff at least 20 leading
characters match. -/
def is_event (pattern basename : List Char) : Bool :=
  if basename.length < pattern.length then false
  else decide (20 ≤ matchCount pattern basename)

/-- Spec-side notion used by C1: the first `k` positions of the pattern and
the basename all match (so pattern and basename agree on a prefix of
length `k`). -/
def prefixMatches (pattern basename : List Char) (k : Nat) : Prop :=
  k ≤ pattern.length ∧ k ≤ basename.length ∧
    ∀ j, j < k → charMatch (pattern.getD j ' ') (basename.getD j ' ') = true

/-- The whitespace characters stripped by Python `int(str)` before parsing
(ASCII part of `str.strip`). -/
def pyWs (c : Char) : Bool :=
  c = ' ' || c = '\t' || c = '\n' || c = '\x0d' || c = '\x0b' || c = '\x0c'

/-- Value of a decimal digit character. -/
def digitVal (c : Char) : Nat := c.toNat - 48

/-- Continuation of Python decimal integer-literal parsing after the first
digit: the remaining characters must be digits, with single underscores
allowed between digits (`digit+('_' digit+)*`). Returns the accumulated
value. -/
def digitsValAux : Nat → List Char → Option Nat
  | acc, [] => some acc
  | _, ['_'] => none
  | acc, '_' :: c :: rest =>
      if c.isDigit then digitsValAux (10 * acc + digitVal c) rest else none
  | acc, c :: rest =>
      if c.isDigit then digitsValAux (10 * acc + digitVal c) rest else none

/-- Python `int(s)` on a string: strip surrounding whitespace, allow one
optional sign, then a decimal literal with optional single underscores
between digits. `none` models a raised `ValueError`. -/
def pyInt (s : List Char) : Option Int :=
  let t := ((s.dropWhile pyWs).reverse.dropWhile pyWs).reverse
  match t with
  | '+' :: c :: rest =>
      if c.isDigit then (digitsValAux (digitVal c) rest).map Int.ofNat else none
  | '-' :: c :: rest =>
      if c.isDigit then (digitsValAux (digitVal c) rest).map (fun n => -(n : Int))
      else none
  | c :: rest =>
      if c.isDigit then (digitsValAux (digitVal c) rest).map Int.ofNat else none
  | [] => none

/-- The frame-name validation of `JsonLocalizer.get_json_files`
(src/jsonLocalizer.py, lines 155-158): split the folder name on the literal
character `'F'`; the name is accepted iff the split yields exactly two
pieces and Python `int()` succeeds on the second piece. -/
def frameNameOk (name : List Char) : Bool :=
  match name.splitOn 'F' with
  | [_, second] => (pyInt second).isSome
  | _ => false

/-- A Frame subfolder is catalogued by `JsonLocalizer.get_json_files` iff
its name passes `frameNameOk` and the descriptor file
`Render/Json/standAloneRender.json` exists beneath it (modelled by the
boolean `descriptorExists`). -/
def frameQualifies (name : List Char) (descriptorExists : Bool) : Bool :=
  frameNameOk name && descriptorExists

/-- Spec-side predicate of C2: the folder name is exactly the character
`'F'` followed by one or more decimal digits. -/
def isFDigitsName (name : List Char) : Bool :=
  match name with
  | 'F' :: rest => !rest.isEmpty && rest.all Char.isDigit
  | _ => false

/-- The while loop of `JsonLocalizer.create_extra_folder`, fuel-bounded:
starting at index `i`, increment while the index is among the
already-existing placeholder indices, settling on the first unused index.
A fuel of `existing.length + 1` always suffices (`findFreeAux_mem_bound`). -/
def findFreeAux : Nat → List Nat → Nat → Nat
  | 0, _, i => i
  | fuel + 1, existing, i =>
      if i ∈ existing then findFreeAux fuel existing (i + 1) else i

/-- The disambiguation index chosen by `JsonLocalizer.create_extra_folder`
(src/jsonLocalizer.py, lines 248-297). `existing` lists the indices `i`
whose placeholder subpath (`sportType_i/stadiumName/categoryName` for
drilling depth 3, `stadiumName_i/categoryName` for depth 2) already exists
on disk; `start` is the current counter value. -/
def findFree (existing : List Nat) (start : Nat) : Nat :=
  findFreeAux (existing.length + 1) existing start

/-- One `create_extra_folder` call: choose the first free index at or above
the counter and create the placeholder tree there (`mkdir(parents=True)`),
returning the chosen index and the updated set of placeholder trees. -/
def create_extra_folder (existing : List Nat) (counter : Nat) :
    Nat × List Nat :=
  (findFree existing counter, findFree existing counter :: existing)

/-- One discovery run with folder creation over a tree holding one shallow
event: `get_json_files` resets the sport counter to 1, and the event
triggers one `create_extra_folder` call at drilling depth 3.  Returns the
set of placeholder trees after the run. -/
def discoveryRun (existing : List Nat) : List Nat :=
  (create_extra_folder existing 1).2

/-- A grayscale image is a matrix of pixel rows (pixel values are the
uint8 luminances 0-255; the proofs hold for arbitrary naturals).
`rect A w` states that every row has width `w` — numpy arrays are
rectangular by construction. -/
def rect (A : List (List Nat)) (w : Nat) : Prop := ∀ row ∈ A, row.length = w

/-- numpy `.shape` of a pixel matrix: row count plus the row widths (for a
rectangular matrix this is the information in the pair `(h, w)`). -/
def pyShape (A : List (List Nat)) : Nat × List Nat :=
  (A.length, A.map List.length)

/-- Sum of the squared differences of two aligned pixel rows. -/
def sqDiffRow : List Nat → List Nat → ℚ
  | a :: as, b :: bs => ((a : ℚ) - (b : ℚ)) ^ 2 + sqDiffRow as bs
  | _, _ => 0

/-- `np.sum((image_a - image_b) ** 2)` over two aligned images. -/
def sqDiffSum : List (List Nat) → List (List Nat) → ℚ
  | ra :: A, rb :: B => sqDiffRow ra rb + sqDiffSum A B
  | _, _ => 0

/-- `mean_squared_error` (src/renderCompare.py, lines 39-62): raise
`ValueError` when the shapes differ, otherwise divide the sum of squared
per-pixel differences by `shape[0] * shape[1]`.  The squared differences
and their sum are integers, so the source's float computation is exact on
every fact proved below. -/
def mean_squared_error (A B : List (List Nat)) : Except String ℚ :=
  if pyShape A ≠ pyShape B then
    .error "Images must have the same dimensions"
  else
    .ok (sqDiffSum A B / ((A.length : ℚ) * ((A.headD []).length : ℚ)))

/-- Per-index data of one original/tester image pair, as observed by the
comparison loop of `RenderCompare.render_compare_do_it`:
* `name` — the basename of the original image file (only the first pair's
  name is ever parsed, for the start frame);
* `loadOk` — both `cv2.imread` calls returned an image;
* `shapeOk` — the two loaded images have equal shapes;
* `mseThrows` / `ssimThrows` — the metric computation raised;
* `mseVal` / `ssimVal` — the metric value when no exception is raised;
* `laterThrows` — the diff/alpha artifact stage raised after the metrics
  were already appended.
The two source lists are consumed index-aligned (`zip`) after an
equal-length check, so a single list of pairs models the loop's input. -/
structure PairInfo where
  name : List Char
  loadOk : Bool
  shapeOk : Bool
  mseThrows : Bool
  mseVal : ℚ
  ssimThrows : Bool
  ssimVal : ℚ
  laterThrows : Bool
deriving DecidableEq

/-- A pair survives the per-pair preconditions (both images loaded and the
dimensions match). -/
def passes (p : PairInfo) : Bool := p.loadOk && p.shapeOk

/-- The MSE value appended for a passing pair: 0.0 when the computation
raised, the computed value otherwise. -/
def mseRecorded (p : PairInfo) : ℚ := if p.mseThrows then 0 else p.mseVal

/-- The SSIM value appended for a passing pair: 0.0 when the library call
raised, the computed value otherwise. -/
def ssimRecorded (p : PairInfo) : ℚ := if p.ssimThrows then 0 else p.ssimVal

/-- The comparison loop of `render_compare_do_it` (src/renderCompare.py,
lines 507-592), returning `(result_mse_list, result_ssim_list,
failed_comparisons)`: a pair failing to load or mismatching in shape is
skipped and counted as failed; a passing pair appends one MSE and one SSIM
entry (0.0 on a metric exception) and is counted as failed only if the
later artifact stage raises. -/
def compareLoop : List PairInfo → List ℚ × List ℚ × Nat
  | [] => ([], [], 0)
  | p :: rest =>
    let r := compareLoop rest
    if passes p then
      (mseRecorded p :: r.1, ssimRecorded p :: r.2.1,
        (if p.laterThrows then 1 else 0) + r.2.2)
    else
      (r.1, r.2.1, r.2.2 + 1)

/-- Python `min` over a nonempty list (never called on an empty one). -/
def pyMin : List ℚ → ℚ
  | [] => 0
  | x :: xs => xs.foldl min x

/-- Python `max` over a nonempty list (never called on an empty one). -/
def pyMax : List ℚ → ℚ
  | [] => 0
  | x :: xs => xs.foldl max x

/-- The XML report of `RenderCompare.write_to_xml_file`, keeping the fields
the claims are about.  The source passes `startFrame`/`endFrame` as
zero-padded decimal strings and re-parses the start with `int()`, which is
the identity on the value, so both are modelled as integers. -/
structure Report where
  startFrame : Int
  endFrame : Int
  minVal : ℚ
  maxVal : ℚ
  frames : List (Int × ℚ)
deriving DecidableEq

/-- `RenderCompare.write_to_xml_file` (src/renderCompare.py, lines
305-413): raise `ValueError` when the compare list does not hold the two
metric lists or when the SSIM list is empty (in both cases before any
document is produced), else emit the document whose frame entries pair
`x + int(start_frame)` with the x-th SSIM value. -/
def write_to_xml_file (compareTypeList : List (List ℚ))
    (startFrame endFrame : Int) : Except String Report :=
  if compareTypeList.length < 2 then
    .error "compare_type_list must contain mse and ssim lists"
  else
    let ssimList := compareTypeList.getD 1 []
    if ssimList.isEmpty then
      .error "SSIM list is empty, cannot generate XML report"
    else
      .ok { startFrame := startFrame, endFrame := endFrame,
            minVal := pyMin ssimList, maxVal := pyMax ssimList,
            frames := (List.range ssimList.length).map
              (fun x : Nat => ((x : Int) + startFrame, ssimList.getD x 0)) }

/-- `int(first_image_name.split('.')[0])` on the first original image of
the task (src/renderCompare.py, lines 450-456); `none` models the logged
`ValueError`/`IndexError` early return.  Only the first name is read. -/
def startFrameOf (pairs : List PairInfo) : Option Int :=
  match pairs with
  | [] => none
  | p :: _ => pyInt (p.name.takeWhile (fun c => c ≠ '.'))

/-- `RenderCompare.render_compare_do_it` (src/renderCompare.py, lines
415-627) as observed by its caller: `Except.error` would model an
exception escaping to `_compare_single_folder`, `.ok none` a normal return
with no report written, `.ok (some r)` a normal return after writing
report `r`.  Mirrors the source's control flow: empty input or an
unparsable first filename returns early; an empty SSIM list after the loop
returns early without calling `write_to_xml_file`; an error raised by
`write_to_xml_file` is caught, logged and swallowed. -/
def render_compare_do_it (pairs : List PairInfo) :
    Except String (Option Report) :=
  if pairs.isEmpty then .ok none
  else
    match startFrameOf pairs with
    | none => .ok none
    | some start =>
      let r := compareLoop pairs
      if r.2.1.isEmpty then .ok none
      else
        match write_to_xml_file [r.1, r.2.1] start
            ((pairs.length : Int) + start - 1) with
        | .ok rep => .ok (some rep)
        | .error _ => .ok none

/-- Sample pair that loads, matches in shape and compares cleanly; its
basename parses to start frame 3. -/
def samplePass : PairInfo :=
  { name := ['0', '0', '0', '3', '.', 'j', 'p', 'g'], loadOk := true,
    shapeOk := true, mseThrows := false, mseVal := 0, ssimThrows := false,
    ssimVal := 1, laterThrows := false }

/-- Sample pair whose images fail to load. -/
def sampleFail : PairInfo :=
  { name := ['0', '0', '0', '4', '.', 'j', 'p', 'g'], loadOk := false,
    shapeOk := false, mseThrows := false, mseVal := 0, ssimThrows := false,
    ssimVal := 1, laterThrows := false }

/-- Sample pair that loads and matches but whose SSIM library call raises. -/
def sampleThrow : PairInfo :=
  { name := ['0', '0', '0', '3', '.', 'j', 'p', 'g'], loadOk := true,
    shapeOk := true, mseThrows := false, mseVal := 0, ssimThrows := true,
    ssimVal := 1, laterThrows := false }

/-- Equality of modelled call results is decidable (used only to evaluate
the embedding at concrete inputs). -/
instance exceptDecEq {ε α : Type} [DecidableEq ε] [DecidableEq α] :
    DecidableEq (Except ε α) := fun a b =>
  match a, b with
  | .error e, .error f =>
    if h : e = f then .isTrue (by rw [h])
    else .isFalse (by intro hc; cases hc; exact h rfl)
  | .ok x, .ok y =>
    if h : x = y then .isTrue (by rw [h])
    else .isFalse (by intro hc; cases hc; exact h rfl)
  | .error _, .ok _ => .isFalse (by intro hc; cases hc)
  | .ok _, .error _ => .isFalse (by intro hc; cases hc)

/-- The report written for `[samplePass, samplePass]`. -/
def c4rep : Report :=
  { startFrame := 3, endFrame := 4, minVal := 1, maxVal := 1,
    frames := [(3, 1), (4, 1)] }

/-- The report written for `[samplePass, sampleFail]`. -/
def c9rep : Report :=
  { startFrame := 3, endFrame := 4, minVal := 1, maxVal := 1,
    frames := [(3, 1)] }

/-- Outcome of one render task's future, as observed by the `as_completed`
loop of `FreeDViewRunner.do_it` (src/freeDViewRunner.py, lines 164-191):
`future.result()` returned True, returned False, or raised. -/
inductive TaskOutcome
  | success
  | failure
  | raisedExn
deriving DecidableEq

/-- The counter aggregation of `FreeDViewRunner.do_it`: the main thread
consumes each completed future exactly once, in completion order, and
increments `_successful_renders` on a True result and `_failed_renders` on
a False result or a raised exception.  Returns
`(_successful_renders, _failed_renders)`. -/
def aggregateCounters : List TaskOutcome → Nat × Nat
  | [] => (0, 0)
  | o :: rest =>
    let r := aggregateCounters rest
    match o with
    | .success => (r.1 + 1, r.2)
    | .failure => (r.1, r.2 + 1)
    | .raisedExn => (r.1, r.2 + 1)

theorem matchCount_le_left : ∀ p b : List Char, matchCount p b ≤ p.length := by
  intro p
  induction p with
  | nil => intro b; cases b <;> simp [matchCount]
  | cons c cs ih =>
    intro b
    cases b with
    | nil => simp [matchCount]
    | cons d ds =>
      simp only [matchCount, List.length_cons]
      split
      · exact Nat.succ_le_succ (ih ds)
      · exact Nat.zero_le _

theorem matchCount_le_right : ∀ p b : List Char, matchCount p b ≤ b.length := by
  intro p
  induction p with
  | nil => intro b; cases b <;> simp [matchCount]
  | cons c cs ih =>
    intro b
    cases b with
    | nil => simp [matchCount]
    | cons d ds =>
      simp only [matchCount, List.length_cons]
      split
      · exact Nat.succ_le_succ (ih ds)
      · exact Nat.zero_le _

theorem matchCount_matches : ∀ (p b : List Char) (j : Nat), j < matchCount p b →
    charMatch (p.getD j ' ') (b.getD j ' ') = true := by
  intro p
  induction p with
  | nil => intro b j h; simp [matchCount] at h
  | cons c cs ih =>
    intro b j h
    cases b with
    | nil => simp [matchCount] at h
    | cons d ds =>
      simp only [matchCount] at h
      by_cases hm : charMatch c d = true
      · simp [hm] at h
        cases j with
        | zero => simpa [List.getD] using hm
        | succ j =>
          have := ih ds j (by omega)
          simpa [List.getD] using this
      · simp [hm] at h

theorem le_matchCount : ∀ (p b : List Char) (k : Nat),
    k ≤ p.length → k ≤ b.length →
    (∀ j, j < k → charMatch (p.getD j ' ') (b.getD j ' ') = true) →
    k ≤ matchCount p b := by
  intro p
  induction p with
  | nil =>
    intro b k hk _ _
    have hk0 : k = 0 := by simpa using hk
    subst hk0
    exact Nat.zero_le _
  | cons c cs ih =>
    intro b k hkp hkb hall
    cases k with
    | zero => exact Nat.zero_le _
    | succ k =>
      cases b with
      | nil => simp at hkb
      | cons d ds =>
        have h0 : charMatch c d = true := by
          simpa [List.getD] using hall 0 (Nat.succ_pos _)
        have hrest : k ≤ matchCount cs ds := by
          refine ih ds k (by simpa using hkp) (by simpa using hkb) ?_
          intro j hj
          simpa [List.getD] using hall (j + 1) (by omega)
        simp only [matchCount, h0, if_true]
        omega

/-- C1: for every wildcard pattern and directory basename, `is_event`
returns true iff the basename is at least as long as the pattern and some
character-matching prefix (equal characters, or `'#'` against a decimal
digit) has length at least 20; in particular it returns false for any
basename shorter than the pattern. -/
theorem c1_is_event_iff_long_matching_prefix (pattern basename : List Char) :
    is_event pattern basename = true ↔
      (pattern.length ≤ basename.length ∧
        ∃ k, 20 ≤ k ∧ prefixMatches pattern basename k) := by
  unfold is_event
  by_cases hlen : basename.length < pattern.length
  · simp only [hlen, if_true]
    constructor
    · intro h; cases h
    · rintro ⟨hge, -⟩; omega
  · simp only [hlen, if_false, decide_eq_true_eq]
    constructor
    · intro h
      refine ⟨by omega, matchCount pattern basename, h,
        matchCount_le_left _ _, matchCount_le_right _ _, ?_⟩
      intro j hj
      exact matchCount_matches pattern basename j hj
    · rintro ⟨-, k, hk20, hkp, hkb, hall⟩
      have := le_matchCount pattern basename k hkp hkb hall
      omega

theorem findFreeAux_ge : ∀ (fuel : Nat) (l : List Nat) (i : Nat),
    i ≤ findFreeAux fuel l i := by
  intro fuel
  induction fuel with
  | zero => intro l i; exact Nat.le_refl i
  | succ fuel ih =>
    intro l i
    simp only [findFreeAux]
    split
    · exact Nat.le_trans (Nat.le_succ i) (ih l (i + 1))
    · exact Nat.le_refl i

theorem countP_succ_lt (l : List Nat) (i : Nat) (h : i ∈ l) :
    l.countP (fun x => decide (i + 1 ≤ x)) + 1 ≤
      l.countP (fun x => decide (i ≤ x)) := by
  induction l with
  | nil => cases h
  | cons a l ih =>
    have hmono : l.countP (fun x => decide (i + 1 ≤ x)) ≤
        l.countP (fun x => decide (i ≤ x)) := by
      refine List.countP_mono_left ?_
      intro b _ hb
      simp only [decide_eq_true_eq] at hb ⊢
      omega
    rcases List.mem_cons.mp h with rfl | hmem
    · simp only [List.countP_cons]
      rw [if_neg (by simp), if_pos (by simp)]
      omega
    · have hih := ih hmem
      simp only [List.countP_cons]
      by_cases ha : i + 1 ≤ a
      · rw [if_pos (by simpa using ha), if_pos (by simp; omega)]
        omega
      · rw [if_neg (by simpa using ha)]
        by_cases ha2 : i ≤ a
        · rw [if_pos (by simpa using ha2)]; omega
        · rw [if_neg (by simpa using ha2)]; omega

theorem findFreeAux_mem_bound : ∀ (fuel : Nat) (l : List Nat) (i : Nat),
    findFreeAux fuel l i ∈ l → fuel ≤ l.countP (fun x => decide (i ≤ x)) := by
  intro fuel
  induction fuel with
  | zero => intro l i _; exact Nat.zero_le _
  | succ fuel ih =>
    intro l i h
    simp only [findFreeAux] at h
    by_cases hi : i ∈ l
    · rw [if_pos hi] at h
      have h1 := ih l (i + 1) h
      have h2 := countP_succ_lt l i hi
      omega
    · rw [if_neg hi] at h
      exact absurd h hi

theorem findFree_not_mem (existing : List Nat) (start : Nat) :
    findFree existing start ∉ existing := by
  intro hmem
  have h1 := findFreeAux_mem_bound (existing.length + 1) existing start hmem
  have h2 := List.countP_le_length
    (p := fun x => decide (start ≤ x)) (l := existing)
  omega

theorem findFreeAux_min : ∀ (fuel : Nat) (l : List Nat) (i j : Nat),
    i ≤ j → j < findFreeAux fuel l i → j ∈ l := by
  intro fuel
  induction fuel with
  | zero => intro l i j hij h; simp only [findFreeAux] at h; omega
  | succ fuel ih =>
    intro l i j hij h
    simp only [findFreeAux] at h
    by_cases hi : i ∈ l
    · rw [if_pos hi] at h
      rcases Nat.eq_or_lt_of_le hij with rfl | hlt
      · exact hi
      · exact ih l (i + 1) j hlt h
    · rw [if_neg hi] at h
      omega

/-- C2 counterexample: the folder name `XF42`, with the descriptor file
present, is catalogued by the discovery code (its split on `'F'` is
`["X", "42"]` and `int("42")` succeeds), yet it is not the character `'F'`
followed by decimal digits.  The claimed equivalence between the two
conditions fails. -/
theorem c2_counterexample_XF42 :
    frameQualifies ['X', 'F', '4', '2'] true = true ∧
      isFDigitsName ['X', 'F', '4', '2'] = false := by
  decide

/-- C2 (amended): a subdirectory of a set folder is catalogued as a frame
unit iff its name splits on the literal character `'F'` into exactly two
pieces whose second piece parses as a Python integer (the first piece need
not be empty, and the parse accepts signs, surrounding whitespace and
underscore digit grouping) and the descriptor file exists beneath it; in
particular `F42` is accepted and `F4a` is rejected. -/
theorem c2_frame_qualification (name : List Char) (descriptorExists : Bool) :
    (frameQualifies name descriptorExists = true ↔
      ((∃ p s, name.splitOn 'F' = [p, s] ∧ (pyInt s).isSome = true) ∧
        descriptorExists = true)) ∧
    frameQualifies ['F', '4', '2'] true = true ∧
    frameQualifies ['F', '4', 'a'] true = false := by
  refine ⟨?_, by decide, by decide⟩
  constructor
  · intro h
    simp only [frameQualifies, Bool.and_eq_true] at h
    rcases h with ⟨h1, h2⟩
    refine ⟨?_, h2⟩
    unfold frameNameOk at h1
    rcases hsplit : name.splitOn 'F' with _ | ⟨p, _ | ⟨s, _ | ⟨t, rest⟩⟩⟩ <;>
      rw [hsplit] at h1
    · exact absurd h1 (by simp)
    · exact absurd h1 (by simp)
    · exact ⟨p, s, rfl, h1⟩
    · exact absurd h1 (by simp)
  · rintro ⟨⟨p, s, hsplit, hparse⟩, hd⟩
    subst hd
    unfold frameQualifies frameNameOk
    rw [hsplit]
    simpa using hparse

/-- C3 counterexample: starting from a tree with no placeholder folders, a
first discovery run (with folder creation) creates the placeholder tree at
index 1; re-running discovery does not reuse it — the while loop of
`create_extra_folder` steps past the existing index-1 tree and creates a
second placeholder tree at index 2, so the run is not idempotent. -/
theorem c3_counterexample_two_runs :
    discoveryRun (discoveryRun []) ≠ discoveryRun [] ∧
      discoveryRun [] = [1] ∧ discoveryRun (discoveryRun []) = [2, 1] := by
  decide

/-- C3 (amended): re-running discovery with folder creation is not
idempotent.  Each `create_extra_folder` call skips every index whose
placeholder subpath already exists (in particular the one made by the
previous run) and creates a fresh placeholder tree at the first unused
index at or above the counter, so a second run over the same tree adds a
second, distinct placeholder tree instead of reusing the first. -/
theorem c3_second_run_adds_new_tree (existing : List Nat) (start : Nat) :
    findFree existing start ∉ existing ∧
    findFree (findFree existing start :: existing) start ≠
      findFree existing start ∧
    start ≤ findFree existing start ∧
    (∀ j, start ≤ j → j < findFree existing start → j ∈ existing) ∧
    create_extra_folder (findFree existing start :: existing) start =
      (findFree (findFree existing start :: existing) start,
        findFree (findFree existing start :: existing) start ::
          findFree existing start :: existing) := by
  have h1 := findFree_not_mem existing start
  have h2 := findFree_not_mem (findFree existing start :: existing) start
  refine ⟨h1, ?_, findFreeAux_ge _ _ _, ?_, rfl⟩
  · intro heq
    exact h2 (by rw [heq]; exact List.mem_cons_self _ _)
  · intro j hj hlt
    exact findFreeAux_min _ _ _ _ hj hlt

/-- Witness for C3's amended theorem at the concrete prior state `[5]`,
counter 1. -/
theorem c3_second_run_adds_new_tree_witness :
    findFree [5] 1 ∉ [5] ∧
    findFree (findFree [5] 1 :: [5]) 1 ≠ findFree [5] 1 ∧
    1 ≤ findFree [5] 1 ∧
    (∀ j, 1 ≤ j → j < findFree [5] 1 → j ∈ [5]) ∧
    create_extra_folder (findFree [5] 1 :: [5]) 1 =
      (findFree (findFree [5] 1 :: [5]) 1,
        findFree (findFree [5] 1 :: [5]) 1 :: findFree [5] 1 :: [5]) :=
  c3_second_run_adds_new_tree [5] 1

theorem sqDiffRow_self : ∀ r, sqDiffRow r r = 0 := by
  intro r
  induction r with
  | nil => rfl
  | cons a as ih => simp [sqDiffRow, ih]

theorem sqDiffSum_self : ∀ A, sqDiffSum A A = 0 := by
  intro A
  induction A with
  | nil => rfl
  | cons r rs ih => simp [sqDiffSum, ih, sqDiffRow_self]

theorem sqDiffRow_comm : ∀ ra rb, sqDiffRow ra rb = sqDiffRow rb ra := by
  intro ra
  induction ra with
  | nil => intro rb; cases rb <;> rfl
  | cons a as ih =>
    intro rb
    cases rb with
    | nil => rfl
    | cons b bs => simp [sqDiffRow, ih]; ring

theorem sqDiffSum_comm : ∀ A B, sqDiffSum A B = sqDiffSum B A := by
  intro A
  induction A with
  | nil => intro B; cases B <;> rfl
  | cons r rs ih =>
    intro B
    cases B with
    | nil => rfl
    | cons rb bs => simp [sqDiffSum, ih, sqDiffRow_comm]

theorem sqDiffRow_nonneg : ∀ ra rb, 0 ≤ sqDiffRow ra rb := by
  intro ra
  induction ra with
  | nil => intro rb; cases rb <;> simp [sqDiffRow]
  | cons a as ih =>
    intro rb
    cases rb with
    | nil => simp [sqDiffRow]
    | cons b bs =>
      have h1 : (0 : ℚ) ≤ ((a : ℚ) - (b : ℚ)) ^ 2 := sq_nonneg _
      have h2 := ih bs
      simp only [sqDiffRow]
      linarith

theorem sqDiffSum_nonneg : ∀ A B, 0 ≤ sqDiffSum A B := by
  intro A
  induction A with
  | nil => intro B; cases B <;> simp [sqDiffSum]
  | cons r rs ih =>
    intro B
    cases B with
    | nil => simp [sqDiffSum]
    | cons rb bs =>
      have h1 := sqDiffRow_nonneg r rb
      have h2 := ih bs
      simp only [sqDiffSum]
      linarith

theorem sqDiffRow_pos : ∀ ra rb, ra.length = rb.length → ra ≠ rb →
    0 < sqDiffRow ra rb := by
  intro ra
  induction ra with
  | nil =>
    intro rb hlen hne
    cases rb with
    | nil => exact absurd rfl hne
    | cons b bs => simp at hlen
  | cons a as ih =>
    intro rb hlen hne
    cases rb with
    | nil => simp at hlen
    | cons b bs =>
      simp only [sqDiffRow]
      by_cases hab : a = b
      · subst hab
        have hne2 : as ≠ bs := by
          intro h; exact hne (by rw [h])
        have := ih bs (by simpa using hlen) hne2
        simp only [sub_self]
        simpa using this
      · have hq : ((a : ℚ) - (b : ℚ)) ≠ 0 := by
          intro h
          exact hab (Nat.cast_injective (by linarith : (a : ℚ) = (b : ℚ)))
        have h1 : 0 < ((a : ℚ) - (b : ℚ)) ^ 2 :=
          (sq_nonneg _).lt_of_ne (Ne.symm (pow_ne_zero 2 hq))
        have h2 := sqDiffRow_nonneg as bs
        linarith

theorem sqDiffSum_pos : ∀ (A B : List (List Nat)) (w : Nat), rect A w →
    rect B w → A.length = B.length → A ≠ B → 0 < sqDiffSum A B := by
  intro A
  induction A with
  | nil =>
    intro B w _ _ hlen hne
    cases B with
    | nil => exact absurd rfl hne
    | cons rb bs => simp at hlen
  | cons ra as ih =>
    intro B w hA hB hlen hne
    cases B with
    | nil => simp at hlen
    | cons rb bs =>
      simp only [sqDiffSum]
      by_cases hr : ra = rb
      · subst hr
        have hne2 : as ≠ bs := by
          intro h; exact hne (by rw [h])
        have hpos := ih bs w (fun r hr => hA r (List.mem_cons_of_mem _ hr))
          (fun r hr => hB r (List.mem_cons_of_mem _ hr)) (by simpa using hlen) hne2
        have := sqDiffRow_self ra
        linarith
      · have hlra := hA ra (List.mem_cons_self _ _)
        have hlrb := hB rb (List.mem_cons_self _ _)
        have hpos := sqDiffRow_pos ra rb (by rw [hlra, hlrb]) hr
        have := sqDiffSum_nonneg as bs
        linarith

/-- Under `rect`, the numpy shape is determined by the row count and the
common width. -/
theorem pyShape_eq_of_rect (A B : List (List Nat)) (w : Nat) (hA : rect A w)
    (hB : rect B w) (hlen : A.length = B.length) : pyShape A = pyShape B := by
  unfold pyShape
  refine Prod.ext hlen ?_
  refine List.ext_get (by simpa using hlen) ?_
  intro n h1 h2
  simp only [List.get_eq_getElem, List.getElem_map]
  rw [hA _ (List.getElem_mem _), hB _ (List.getElem_mem _)]

/-- C6: calling `mean_squared_error` on two images whose shapes differ
raises the dimension-mismatch `ValueError`; a value is computed only when
the shapes agree. -/
theorem c6_mse_shape_mismatch_is_error (A B : List (List Nat)) :
    (mean_squared_error A B =
        Except.error "Images must have the same dimensions") ↔
      pyShape A ≠ pyShape B := by
  unfold mean_squared_error
  by_cases h : pyShape A = pyShape B
  · simp [h]
  · simp [h]

/-- C5: on equal-dimension grayscale images (rectangular, with at least one
row and a positive common width), `mean_squared_error` is symmetric, is 0
on identical images, and is strictly positive on distinct images. -/
theorem c5_mse_metric_properties (A B : List (List Nat)) (w : Nat)
    (hA : rect A w) (hB : rect B w) (hlen : A.length = B.length)
    (hh : 0 < A.length) (hw : 0 < w) :
    mean_squared_error A A = Except.ok 0 ∧
    (A ≠ B → ∃ q : ℚ, mean_squared_error A B = Except.ok q ∧ 0 < q) ∧
    mean_squared_error A B = mean_squared_error B A := by
  have hshape := pyShape_eq_of_rect A B w hA hB hlen
  refine ⟨?_, ?_, ?_⟩
  · unfold mean_squared_error
    simp [sqDiffSum_self]
  · intro hne
    have hA0 : A ≠ [] := by
      intro h; subst h; simp at hh
    have hheadA : (A.headD []).length = w := by
      cases A with
      | nil => exact absurd rfl hA0
      | cons r rs => exact hA r (List.mem_cons_self _ _)
    have hpos := sqDiffSum_pos A B w hA hB hlen hne
    have hden : 0 < ((A.length : ℚ) * ((A.headD []).length : ℚ)) := by
      rw [hheadA]
      have h1 : (0 : ℚ) < (A.length : ℚ) := by exact_mod_cast hh
      have h2 : (0 : ℚ) < (w : ℚ) := by exact_mod_cast hw
      exact mul_pos h1 h2
    refine ⟨sqDiffSum A B / ((A.length : ℚ) * ((A.headD []).length : ℚ)), ?_, ?_⟩
    · unfold mean_squared_error
      rw [if_neg (not_not_intro hshape)]
    · exact div_pos hpos hden
  · unfold mean_squared_error
    rw [if_neg (not_not_intro hshape), if_neg (not_not_intro hshape.symm)]
    have hheads : (A.headD []).length = (B.headD []).length := by
      cases A with
      | nil =>
        cases B with
        | nil => rfl
        | cons rb bs => simp at hlen
      | cons ra as =>
        cases B with
        | nil => simp at hlen
        | cons rb bs =>
          rw [List.headD_cons, List.headD_cons,
            hA ra (List.mem_cons_self _ _), hB rb (List.mem_cons_self _ _)]
    rw [sqDiffSum_comm, hlen, hheads]

/-- Witness for C5 at two concrete 1x2 images differing in one pixel. -/
theorem c5_mse_metric_properties_witness :
    mean_squared_error [[1, 2]] [[1, 2]] = Except.ok 0 ∧
    ([[1, 2]] ≠ ([[1, 3]] : List (List Nat)) →
      ∃ q : ℚ, mean_squared_error [[1, 2]] [[1, 3]] = Except.ok q ∧ 0 < q) ∧
    mean_squared_error [[1, 2]] [[1, 3]] = mean_squared_error [[1, 3]] [[1, 2]] :=
  c5_mse_metric_properties [[1, 2]] [[1, 3]] 2
    (by intro r hr; simp at hr; subst hr; rfl)
    (by intro r hr; simp at hr; subst hr; rfl)
    rfl (by simp) (by simp)

/-- Witness for C6 at images of shapes 1x2 and 1x1. -/
theorem c6_mse_shape_mismatch_is_error_witness :
    mean_squared_error [[5, 5]] [[5]] =
      Except.error "Images must have the same dimensions" :=
  (c6_mse_shape_mismatch_is_error [[5, 5]] [[5]]).mpr (by decide)

theorem compareLoop_mse (pairs : List PairInfo) :
    (compareLoop pairs).1 = (pairs.filter passes).map mseRecorded := by
  induction pairs with
  | nil => rfl
  | cons p rest ih =>
    simp only [compareLoop]
    by_cases hp : passes p
    · simp [hp, List.filter_cons, ih]
    · simp [hp, List.filter_cons, ih]

theorem compareLoop_ssim (pairs : List PairInfo) :
    (compareLoop pairs).2.1 = (pairs.filter passes).map ssimRecorded := by
  induction pairs with
  | nil => rfl
  | cons p rest ih =>
    simp only [compareLoop]
    by_cases hp : passes p
    · simp [hp, List.filter_cons, ih]
    · simp [hp, List.filter_cons, ih]

theorem compareLoop_failed (pairs : List PairInfo) :
    (compareLoop pairs).2.2 =
      (pairs.filter (fun p => !passes p || p.laterThrows)).length := by
  induction pairs with
  | nil => rfl
  | cons p rest ih =>
    simp only [compareLoop]
    by_cases hp : passes p
    · by_cases hl : p.laterThrows
      · simp [hp, hl, List.filter_cons, ih]
        omega
      · simp [hp, hl, List.filter_cons, ih]
    · simp [hp, List.filter_cons, ih]

/-- The report produced on the success path, in terms of the loop output. -/
theorem render_compare_ok (pairs : List PairInfo) (s : Int)
    (h0 : pairs ≠ []) (hs : startFrameOf pairs = some s)
    (hss : (compareLoop pairs).2.1 ≠ []) :
    render_compare_do_it pairs = .ok (some
      { startFrame := s, endFrame := (pairs.length : Int) + s - 1,
        minVal := pyMin (compareLoop pairs).2.1,
        maxVal := pyMax (compareLoop pairs).2.1,
        frames := (List.range (compareLoop pairs).2.1.length).map
          (fun x : Nat => ((x : Int) + s, (compareLoop pairs).2.1.getD x 0)) }) := by
  unfold render_compare_do_it
  rw [if_neg (by simpa using h0), hs]
  simp only
  rw [if_neg (by simpa using hss)]
  unfold write_to_xml_file
  rw [if_neg (by simp)]
  simp only [List.getD]
  rw [if_neg (by simpa using hss)]
  rfl

/-- Inversion: any written report has the success-path shape. -/
theorem render_compare_ok_inv (pairs : List PairInfo) (rep : Report)
    (h : render_compare_do_it pairs = .ok (some rep)) :
    ∃ s, startFrameOf pairs = some s ∧ (compareLoop pairs).2.1 ≠ [] ∧
      rep =
        ({ startFrame := s, endFrame := (pairs.length : Int) + s - 1,
           minVal := pyMin (compareLoop pairs).2.1,
           maxVal := pyMax (compareLoop pairs).2.1,
           frames := (List.range (compareLoop pairs).2.1.length).map
             (fun x : Nat =>
               ((x : Int) + s, (compareLoop pairs).2.1.getD x 0)) } :
          Report) := by
  by_cases h0 : pairs.isEmpty
  · unfold render_compare_do_it at h
    rw [if_pos h0] at h
    simp at h
  rcases hs : startFrameOf pairs with _ | s
  · unfold render_compare_do_it at h
    rw [if_neg h0, hs] at h
    simp at h
  by_cases hss : (compareLoop pairs).2.1 = []
  · unfold render_compare_do_it at h
    rw [if_neg h0, hs] at h
    simp only at h
    rw [if_pos (by simpa using hss)] at h
    simp at h
  · have hok := render_compare_ok pairs s (by simpa using h0) hs hss
    rw [hok] at h
    refine ⟨s, rfl, hss, ?_⟩
    simpa using h.symm

theorem map_getD_range (l : List ℚ) :
    (List.range l.length).map (fun x : Nat => l.getD x 0) = l := by
  refine List.ext_get (by simp) ?_
  intro n h1 h2
  simp only [List.get_eq_getElem, List.getElem_map, List.getElem_range]
  rw [List.getD_eq_getElem l 0 h2]

theorem filter_passes_split (pairs : List PairInfo) :
    (pairs.filter passes).length +
      (pairs.filter (fun p => !passes p)).length = pairs.length := by
  induction pairs with
  | nil => rfl
  | cons p rest ih =>
    by_cases hp : passes p <;> simp [List.filter_cons, hp] <;> omega

theorem foldl_min_le : ∀ (xs : List ℚ) (a x : ℚ), x ∈ a :: xs →
    xs.foldl min a ≤ x := by
  intro xs
  induction xs with
  | nil =>
    intro a x hx
    rcases List.mem_cons.mp hx with rfl | h
    · exact le_refl _
    · cases h
  | cons y ys ih =>
    intro a x hx
    rcases List.mem_cons.mp hx with rfl | h
    · exact le_trans (ih (min x y) _ (List.mem_cons_self _ _)) (min_le_left _ _)
    · rcases List.mem_cons.mp h with rfl | h2
      · exact le_trans (ih (min a x) _ (List.mem_cons_self _ _)) (min_le_right _ _)
      · exact ih (min a y) x (List.mem_cons_of_mem _ h2)

theorem foldl_min_mem : ∀ (xs : List ℚ) (a : ℚ), xs.foldl min a ∈ a :: xs := by
  intro xs
  induction xs with
  | nil => intro a; exact List.mem_cons_self _ _
  | cons y ys ih =>
    intro a
    have h := ih (min a y)
    rcases List.mem_cons.mp h with heq | hmem
    · rcases min_choice a y with ha | hy
      · rw [List.foldl_cons, heq, ha]; exact List.mem_cons_self _ _
      · rw [List.foldl_cons, heq, hy]
        exact List.mem_cons_of_mem _ (List.mem_cons_self _ _)
    · exact List.mem_cons_of_mem _ (List.mem_cons_of_mem _ hmem)

theorem pyMin_eq_zero (l : List ℚ) (h0 : (0 : ℚ) ∈ l)
    (hall : ∀ x ∈ l, 0 ≤ x) : pyMin l = 0 := by
  cases l with
  | nil => cases h0
  | cons a xs =>
    have h1 : xs.foldl min a ≤ 0 := foldl_min_le xs a 0 h0
    have h2 : 0 ≤ xs.foldl min a := hall _ (foldl_min_mem xs a)
    have : pyMin (a :: xs) = xs.foldl min a := rfl
    rw [this]
    linarith

/-- C4: in every written report the number of frame entries equals the
number of index positions whose pair loaded and matched in dimensions, and
the frameIndex values are the contiguous run s, s+1, ... starting at the
integer parsed from the first original image's filename (later filenames
are never re-read: the loop derives every index from that one parse). -/
theorem c4_report_frames_count_and_contiguous (pairs : List PairInfo)
    (rep : Report) (h : render_compare_do_it pairs = .ok (some rep)) :
    rep.frames.length = (pairs.filter passes).length ∧
    ∃ s, startFrameOf pairs = some s ∧ rep.startFrame = s ∧
      rep.frames.map Prod.fst =
        (List.range rep.frames.length).map (fun x : Nat => (x : Int) + s) := by
  rcases render_compare_ok_inv pairs rep h with ⟨s, hs, hne, hrep⟩
  subst hrep
  constructor
  · simp [compareLoop_ssim]
  · refine ⟨s, hs, rfl, ?_⟩
    simp [List.map_map, Function.comp]

/-- Witness for C4 on two clean pairs starting at frame 3. -/
theorem c4_report_frames_count_and_contiguous_witness :
    c4rep.frames.length = ([samplePass, samplePass].filter passes).length ∧
    ∃ s, startFrameOf [samplePass, samplePass] = some s ∧
      c4rep.startFrame = s ∧
      c4rep.frames.map Prod.fst =
        (List.range c4rep.frames.length).map (fun x : Nat => (x : Int) + s) :=
  c4_report_frames_count_and_contiguous [samplePass, samplePass] c4rep
    (by decide)

/-- C9: the report's endFrame is always start + (full input length) - 1,
computed from the complete input list; whenever at least one pair was
skipped (failed to load or mismatched in dimensions), the last reported
frameIndex, start + (number of frame entries) - 1, is strictly below
endFrame. -/
theorem c9_endframe_ignores_skipped (pairs : List PairInfo) (rep : Report)
    (h : render_compare_do_it pairs = .ok (some rep)) :
    (∃ s, startFrameOf pairs = some s ∧
      rep.endFrame = s + (pairs.length : Int) - 1) ∧
    (0 < (pairs.filter (fun p => !passes p)).length →
      rep.startFrame + (rep.frames.length : Int) - 1 < rep.endFrame) := by
  rcases render_compare_ok_inv pairs rep h with ⟨s, hs, hne, hrep⟩
  have hstart : rep.startFrame = s := by rw [hrep]
  have hend : rep.endFrame = (pairs.length : Int) + s - 1 := by rw [hrep]
  have hflen : rep.frames.length = (pairs.filter passes).length := by
    rw [hrep]
    simp [compareLoop_ssim]
  have hsplit := filter_passes_split pairs
  constructor
  · exact ⟨s, hs, by rw [hend]; ring⟩
  · intro hskip
    rw [hstart, hend, hflen]
    have hlt : (pairs.filter passes).length < pairs.length := by omega
    omega

/-- Witness for C9: one clean pair and one unloadable pair, start frame 3;
the single frame entry has index 3 while endFrame is 4. -/
theorem c9_endframe_ignores_skipped_witness :
    (∃ s, startFrameOf [samplePass, sampleFail] = some s ∧
      c9rep.endFrame =
        s + (([samplePass, sampleFail] : List PairInfo).length : Int) - 1) ∧
    (0 < (([samplePass, sampleFail].filter (fun p => !passes p)).length) →
      c9rep.startFrame + (c9rep.frames.length : Int) - 1 < c9rep.endFrame) :=
  c9_endframe_ignores_skipped [samplePass, sampleFail] c9rep (by decide)

/-- C7 counterexample: on a task whose only pair fails to load, the SSIM
metric list ends up empty, yet `render_compare_do_it` returns normally
with no report and raises nothing — so no error reaches the
comparison-run caller, contrary to the claim. -/
theorem c7_counterexample_error_not_surfaced :
    render_compare_do_it [sampleFail] = Except.ok none ∧
      (compareLoop [sampleFail]).2.1 = [] := by
  decide

/-- C7 (amended): an empty SSIM list is a hard error inside
`write_to_xml_file` (raised before any document is produced), but
`render_compare_do_it` checks for the empty list itself and returns
normally without writing a report and without raising; the error is
logged, never surfaced to the comparison-run caller (the function returns
normally on every input). -/
theorem c7_empty_metrics_error_swallowed (ms : List ℚ) (sf ef : Int)
    (pairs pairs2 : List PairInfo) (hempty : pairs.filter passes = []) :
    write_to_xml_file [ms, []] sf ef =
      Except.error "SSIM list is empty, cannot generate XML report" ∧
    render_compare_do_it pairs = Except.ok none ∧
    ∃ o, render_compare_do_it pairs2 = Except.ok o := by
  refine ⟨rfl, ?_, ?_⟩
  · by_cases h0 : pairs.isEmpty
    · unfold render_compare_do_it
      rw [if_pos h0]
    · unfold render_compare_do_it
      rw [if_neg h0]
      rcases hs : startFrameOf pairs with _ | s
      · rfl
      · simp only
        rw [if_pos (by simp [compareLoop_ssim, hempty])]
  · by_cases h0 : pairs2.isEmpty
    · refine ⟨none, ?_⟩
      unfold render_compare_do_it
      rw [if_pos h0]
    · rcases hs : startFrameOf pairs2 with _ | s
      · refine ⟨none, ?_⟩
        unfold render_compare_do_it
        rw [if_neg h0, hs]
      · by_cases hss : (compareLoop pairs2).2.1 = []
        · refine ⟨none, ?_⟩
          unfold render_compare_do_it
          rw [if_neg h0, hs]
          simp only
          rw [if_pos (by simpa using hss)]
        · exact ⟨some _, render_compare_ok pairs2 s (by simpa using h0) hs hss⟩

/-- Witness for C7's amended theorem at concrete inputs. -/
theorem c7_empty_metrics_error_swallowed_witness :
    write_to_xml_file [[], []] 0 0 =
      Except.error "SSIM list is empty, cannot generate XML report" ∧
    render_compare_do_it [sampleFail] = Except.ok none ∧
    ∃ o, render_compare_do_it [samplePass] = Except.ok o :=
  c7_empty_metrics_error_swallowed [] 0 0 [sampleFail] [samplePass] (by decide)

/-- C10: for a pair that loads with matching dimensions but whose SSIM
call raises, the loop appends 0.0 as that frame's metric and the frame is
still reported as compared (it yields a frame entry and does not add to
the failure counter); when all other recorded values are nonnegative, the
report's minVal is exactly 0. -/
theorem c10_metric_exception_records_zero (pairs : List PairInfo) (i : Nat)
    (hi : i < pairs.length) (s : Int) (hs : startFrameOf pairs = some s)
    (hload : (pairs.get ⟨i, hi⟩).loadOk = true)
    (hshape : (pairs.get ⟨i, hi⟩).shapeOk = true)
    (hthrow : (pairs.get ⟨i, hi⟩).ssimThrows = true)
    (hnn : ∀ p ∈ pairs, 0 ≤ p.ssimVal) :
    ∃ rep, render_compare_do_it pairs = Except.ok (some rep) ∧
      rep.frames.length = (pairs.filter passes).length ∧
      (0 : ℚ) ∈ rep.frames.map Prod.snd ∧
      rep.minVal = 0 ∧
      (compareLoop pairs).2.2 =
        (pairs.filter (fun p => !passes p || p.laterThrows)).length := by
  have hpass : passes (pairs.get ⟨i, hi⟩) = true := by
    unfold passes
    rw [hload, hshape]
    rfl
  have hmem : pairs.get ⟨i, hi⟩ ∈ pairs := List.get_mem _ _ _
  have hmemf : pairs.get ⟨i, hi⟩ ∈ pairs.filter passes :=
    List.mem_filter.mpr ⟨hmem, hpass⟩
  have hrec : ssimRecorded (pairs.get ⟨i, hi⟩) = 0 := by
    unfold ssimRecorded
    rw [hthrow]
    rfl
  have h0mem : (0 : ℚ) ∈ (compareLoop pairs).2.1 := by
    rw [compareLoop_ssim]
    exact hrec ▸ List.mem_map_of_mem ssimRecorded hmemf
  have hss : (compareLoop pairs).2.1 ≠ [] := List.ne_nil_of_mem h0mem
  have h0 : pairs ≠ [] := by
    intro hcon; subst hcon; simp at hi
  have hforall : ∀ x ∈ (compareLoop pairs).2.1, 0 ≤ x := by
    rw [compareLoop_ssim]
    intro x hx
    rcases List.mem_map.mp hx with ⟨p, hp, rfl⟩
    have hpmem : p ∈ pairs := (List.mem_filter.mp hp).1
    by_cases ht : p.ssimThrows
    · simp [ssimRecorded, ht]
    · simp only [ssimRecorded, ht, if_false]
      exact hnn p hpmem
  refine ⟨_, render_compare_ok pairs s h0 hs hss, ?_, ?_, ?_, ?_⟩
  · simp [compareLoop_ssim]
  · have hmaps : ((List.range (compareLoop pairs).2.1.length).map
        (fun x : Nat => ((x : Int) + s, (compareLoop pairs).2.1.getD x 0))).map
          Prod.snd = (compareLoop pairs).2.1 := by
      rw [List.map_map]
      exact map_getD_range _
    change (0 : ℚ) ∈ ((List.range (compareLoop pairs).2.1.length).map
      (fun x : Nat =>
        ((x : Int) + s, (compareLoop pairs).2.1.getD x 0))).map Prod.snd
    rw [hmaps]
    exact h0mem
  · exact pyMin_eq_zero _ h0mem hforall
  · exact compareLoop_failed pairs

/-- Witness for C10 on a single pair whose SSIM call raises. -/
theorem c10_metric_exception_records_zero_witness :
    ∃ rep, render_compare_do_it [sampleThrow] = Except.ok (some rep) ∧
      rep.frames.length = ([sampleThrow].filter passes).length ∧
      (0 : ℚ) ∈ rep.frames.map Prod.snd ∧
      rep.minVal = 0 ∧
      (compareLoop [sampleThrow]).2.2 =
        ([sampleThrow].filter (fun p => !passes p || p.laterThrows)).length :=
  c10_metric_exception_records_zero [sampleThrow] 0 (by decide) 3 (by decide)
    (by decide) (by decide) (by decide) (by decide)

theorem countP_success_split (l : List TaskOutcome) :
    l.countP (fun o => decide (o = .success)) +
      l.countP (fun o => !decide (o = .success)) = l.length := by
  induction l with
  | nil => rfl
  | cons o rest ih =>
    by_cases ho : o = TaskOutcome.success <;>
      simp [List.countP_cons, ho] <;> omega

theorem aggregateCounters_countP (outcomes : List TaskOutcome) :
    aggregateCounters outcomes =
      (outcomes.countP (fun o => decide (o = .success)),
        outcomes.countP (fun o => !decide (o = .success))) := by
  induction outcomes with
  | nil => rfl
  | cons o rest ih =>
    cases o <;> simp [aggregateCounters, ih, List.countP_cons]

/-- C8: for any multiset of task outcomes (one outcome per submitted task,
observed once each by the consuming loop in any completion order), the
final successful counter plus the final failed counter equals the number
of tasks, and the counters do not depend on the completion order. -/
theorem c8_counters_sum_to_total (outcomes outcomes2 : List TaskOutcome)
    (hperm : outcomes.Perm outcomes2) :
    (aggregateCounters outcomes).1 + (aggregateCounters outcomes).2 =
      outcomes.length ∧
    aggregateCounters outcomes = aggregateCounters outcomes2 := by
  constructor
  · rw [aggregateCounters_countP]
    exact countP_success_split outcomes
  · rw [aggregateCounters_countP, aggregateCounters_countP,
      hperm.countP_eq, hperm.countP_eq]

/-- Witness for C8: three outcomes consumed in two different orders. -/
theorem c8_counters_sum_to_total_witness :
    (aggregateCounters [.success, .failure, .raisedExn]).1 +
        (aggregateCounters [.success, .failure, .raisedExn]).2 =
      ([TaskOutcome.success, .failure, .raisedExn] : List TaskOutcome).length ∧
    aggregateCounters [.success, .failure, .raisedExn] =
      aggregateCounters [.raisedExn, .success, .failure] :=
  c8_counters_sum_to_total [.success, .failure, .raisedExn]
    [.raisedExn, .success, .failure] (by decide)

end FreeDView
